import Mathlib

/-!
Verification of the guessing-game repository (src/guessgame/src/safe.c and
src/guessgame/src/vuln.c) against its natural-language specification.

Strings are modelled at the byte level as `List Nat` (ASCII codes), matching
the C programs, which operate on `char` buffers.  The C standard-library
functions the programs call (`fgets`, `strcspn`, `atoi`, `isdigit`, `scanf`
with `%s`, `printf`) are embedded with their standard C semantics.
-/

namespace GuessGame

/-- Models C `isdigit` in the C locale: ASCII bytes 48..57 (the characters
`0`..`9`). -/
def isdigit (b : Nat) : Bool := decide (48 ≤ b ∧ b ≤ 57)

/-- Models C `isspace` in the C locale: space (32) and the bytes 9..13
(tab, newline, vertical tab, form feed, carriage return). -/
def isspace (b : Nat) : Bool := decide (b = 32 ∨ (9 ≤ b ∧ b ≤ 13))

/-- The function `is_number` from safe.c: skip one optional leading sign
(`-` is byte 45, `+` is byte 43), reject if nothing remains, then require
every remaining byte to be an ASCII digit. -/
def is_number (s : List Nat) : Bool :=
  match s with
  | [] => false
  | b :: rest =>
    if b = 45 ∨ b = 43 then
      match rest with
      | [] => false
      | _ :: _ => rest.all isdigit
    else (b :: rest).all isdigit

/-- The grammar `[+-]?[0-9]+` as the specification words it: an optional
single leading sign followed by at least one ASCII decimal digit.  This
definition follows the spec's words and is compared against `is_number`,
which is translated from the source. -/
def grammarNumber (s : List Nat) : Prop :=
  ∃ sign ds : List Nat,
    (sign = [] ∨ sign = [43] ∨ sign = [45]) ∧
    ds ≠ [] ∧ (∀ b ∈ ds, 48 ≤ b ∧ b ≤ 57) ∧ s = sign ++ ds

lemma all_isdigit_iff (ds : List Nat) :
    ds.all isdigit = true ↔ ∀ b ∈ ds, 48 ≤ b ∧ b ≤ 57 := by
  simp [List.all_eq_true, isdigit]

/-- Claim C1: the validator `is_number` accepts a string exactly when it
matches the grammar `[+-]?[0-9]+` (optional single sign, then at least one
ASCII digit); in particular it rejects the empty string, a bare sign, and
any string containing a non-digit byte after the optional sign. -/
theorem C1_validator_grammar :
    ∀ s : List Nat, is_number s = true ↔ grammarNumber s := by
  intro s
  constructor
  · intro h
    match s with
    | [] => simp [is_number] at h
    | b :: rest =>
      by_cases hb : b = 45 ∨ b = 43
      · match rest with
        | [] => simp [is_number, hb] at h
        | c :: rest' =>
          simp only [is_number, hb, if_true] at h
          refine ⟨[b], c :: rest', ?_, by simp, (all_isdigit_iff _).mp h, rfl⟩
          rcases hb with hb | hb <;> simp [hb]
      · simp only [is_number, hb, if_false] at h
        exact ⟨[], b :: rest, by simp, by simp, (all_isdigit_iff _).mp h, rfl⟩
  · rintro ⟨sign, ds, hsign, hds, hdig, rfl⟩
    have hall : ds.all isdigit = true := (all_isdigit_iff _).mpr hdig
    rcases hsign with h | h | h <;> subst h
    · simp only [List.nil_append]
      match ds, hds with
      | b :: rest, _ =>
        have hb := hdig b (by simp)
        have hb' : ¬(b = 45 ∨ b = 43) := by omega
        simp only [is_number, hb', if_false]
        exact hall
    · match ds, hds with
      | b :: rest, _ =>
        simp only [List.cons_append, List.nil_append, is_number]
        simp [hall]
    · match ds, hds with
      | b :: rest, _ =>
        simp only [List.cons_append, List.nil_append, is_number]
        simp [hall]

/-- The three-way comparison result (spec section 4.5). -/
inductive Verdict where
  | TooSmall
  | TooLarge
  | Correct
deriving DecidableEq, Repr

/-- The comparison from main in safe.c (and identically in vuln.c):
`if (guess < secret) ... else if (guess > secret) ... else ...`. -/
def compare (guess secret : Int) : Verdict :=
  if guess < secret then Verdict.TooSmall
  else if guess > secret then Verdict.TooLarge
  else Verdict.Correct

/-- Exchanges TooSmall and TooLarge, fixes Correct (used to state the
antisymmetry part of claim C7). -/
def swapVerdict : Verdict → Verdict
  | Verdict.TooSmall => Verdict.TooLarge
  | Verdict.TooLarge => Verdict.TooSmall
  | Verdict.Correct => Verdict.Correct

/-- Claim C7: `compare` returns TooSmall exactly when guess < secret,
TooLarge exactly when guess > secret, Correct exactly when they are equal;
hence `compare x x = Correct` and swapping the arguments exchanges
TooSmall with TooLarge and fixes Correct. -/
theorem C7_compare_correct :
    ∀ guess secret : Int,
      (compare guess secret = Verdict.TooSmall ↔ guess < secret) ∧
      (compare guess secret = Verdict.TooLarge ↔ secret < guess) ∧
      (compare guess secret = Verdict.Correct ↔ guess = secret) ∧
      compare guess guess = Verdict.Correct ∧
      compare secret guess = swapVerdict (compare guess secret) := by
  intro guess secret
  rcases lt_trichotomy guess secret with h | h | h <;>
    simp [compare, swapVerdict, h, le_of_lt, not_lt_of_gt, lt_irrefl] <;>
    omega

/-- The secret draw from main in both safe.c and vuln.c:
`secret = rand() % 100 + 1`.  The value returned by C `rand()` is a
nonnegative int, modelled as a natural number. -/
def generate_secret (draw : Nat) : Int := (draw : Int) % 100 + 1

/-- Claim C6: every value of `generate_secret` lies in [1,100], no matter
what the underlying generator draws. -/
theorem C6_secret_range :
    ∀ draw : Nat, 1 ≤ generate_secret draw ∧ generate_secret draw ≤ 100 := by
  intro draw
  unfold generate_secret
  have h0 : (0 : Int) ≤ (draw : Int) % 100 := Int.emod_nonneg _ (by norm_num)
  have h1 : (draw : Int) % 100 < 100 := Int.emod_lt_of_pos _ (by norm_num)
  omega

/-- The digit-consuming loop of C `atoi`: accumulate decimal digits until
the first non-digit byte, starting from accumulator `acc`. -/
def digitsVal : List Nat → Int → Int
  | [], acc => acc
  | b :: rest, acc =>
    if isdigit b then digitsVal rest (10 * acc + ((b - 48 : Nat) : Int))
    else acc

/-- C `atoi` (as both programs call it): skip leading whitespace, consume an
optional single sign, then consume a maximal run of decimal digits; any
remaining bytes are ignored.  The value is modelled as an unbounded integer
(`atoi`'s behaviour on overflow of the native int is undefined in C). -/
def atoi (s : List Nat) : Int :=
  match s.dropWhile isspace with
  | [] => 0
  | b :: rest =>
    if b = 45 then - digitsVal rest 0
    else if b = 43 then digitsVal rest 0
    else digitsVal (b :: rest) 0

/-- The bytes C `fgets(buf, size, stdin)` stores (terminator excluded) when
up to `fuel = size - 1` bytes may be stored: stop at end of input, after
storing a newline, or when the capacity is exhausted. -/
def fgetsRead : Nat → List Nat → List Nat
  | _, [] => []
  | 0, _ :: _ => []
  | fuel + 1, b :: rest =>
    if b = 10 then [b] else b :: fgetsRead fuel rest

/-- Overwrite the front of buffer `buf` with the bytes `pre`, leaving the
bytes past `pre.length` untouched (a bounded memory write). -/
def bufWrite (buf pre : List Nat) : List Nat := pre ++ buf.drop pre.length

/-- The C string held in a buffer: the bytes up to (excluding) the first
NUL byte. -/
def cstr (buf : List Nat) : List Nat := buf.takeWhile (fun b => b ≠ 0)

/-- An output event: a write to standard output or to standard error. -/
inductive OutEv where
  | out (s : String)
  | err (s : String)
deriving DecidableEq, Repr

/-- The standard-output writes of a trace, in order. -/
def outs (t : List OutEv) : List String :=
  t.filterMap (fun e => match e with | OutEv.out s => some s | OutEv.err _ => none)

/-- The standard-error writes of a trace, in order. -/
def errs (t : List OutEv) : List String :=
  t.filterMap (fun e => match e with | OutEv.err s => some s | OutEv.out _ => none)

/-- The verdict line printed by both programs. -/
def verdictMsg : Verdict → String
  | Verdict.TooSmall => "too small\n"
  | Verdict.TooLarge => "too much\n"
  | Verdict.Correct => "congrats\n"

/-- The observable result of one run of safe.c's main. -/
structure SafeRun where
  trace : List OutEv
  text : List Nat
  guess : Int
  secret : Int
  verdict : Verdict
  errEOF : Bool
  errInvalid : Bool
deriving Repr

/-- Everything main in safe.c does after the `fgets` call, given whether
`fgets` failed (`eof`, in which case the buffer keeps its previous — in C
uninitialized — contents) and the buffer contents `buf1` after the read:
strip the first newline by writing NUL over it (`buffer[strcspn(buffer,
"\n")] = 0`), validate with `is_number`, on failure report and overwrite
the first four bytes with `1337` (as the code does: four byte stores, no
NUL terminator), then `guess = atoi(buffer)` and the three prints. -/
def safeMainCore (draw : Nat) (eof : Bool) (buf1 : List Nat) : SafeRun :=
  let secret := generate_secret draw
  let s := cstr buf1
  let idx := (s.takeWhile (fun b => b ≠ 10)).length
  let buf2 := buf1.set idx 0
  let text := cstr buf2
  let valid := is_number text
  let buf3 := if valid then buf2 else bufWrite buf2 [49, 51, 51, 55]
  let guess := atoi (cstr buf3)
  let v := compare guess secret
  { trace :=
      [OutEv.out ("pls guess a number: ")] ++
      (if eof then [OutEv.err ("Error reading input.\n")] else []) ++
      (if valid then [] else [OutEv.err ("Invalid input. Please enter a number.\n")]) ++
      [OutEv.out (verdictMsg v),
       OutEv.out ("you guessed : " ++ toString guess ++ "\n"),
       OutEv.out ("secret num. : " ++ toString secret ++ "\n")],
    text := text, guess := guess, secret := secret, verdict := v,
    errEOF := eof, errInvalid := !valid }

/-- The buffer contents after the `fgets(buffer, sizeof(buffer), stdin)`
call in safe.c: on end of file (`input = []`, fgets returns NULL) the
buffer keeps its previous contents `g`; otherwise the bytes read plus a
NUL terminator overwrite the front of the buffer. -/
def readBuf (g input : List Nat) : List Nat :=
  if input.isEmpty then g else bufWrite g (fgetsRead 99 input ++ [0])

/-- One run of main from safe.c.  `draw` is what `rand()` returns, `g` is
the initial (uninitialized) content of the 100-byte stack buffer, and
`input` is the byte stream available on standard input. -/
def safeMain (draw : Nat) (g input : List Nat) : SafeRun :=
  safeMainCore draw input.isEmpty (readBuf g input)

/-- The token `scanf("%s", buffer)` consumes: skip leading whitespace, then
read up to the next whitespace byte (with no bound on the length — the
vulnerability; the overflow itself is outside this byte-level model). -/
def scanfToken (input : List Nat) : List Nat :=
  (input.dropWhile isspace).takeWhile (fun b => !isspace b)

/-- The observable result of one run of vuln.c's main. -/
structure VulnRun where
  trace : List OutEv
  guess : Int
  secret : Int
  verdict : Verdict
deriving Repr

/-- One run of main from vuln.c: read a whitespace-delimited token, pass it
straight to `atoi` with no validation and no error reporting, compare and
print. -/
def vulnMain (draw : Nat) (input : List Nat) : VulnRun :=
  let secret := generate_secret draw
  let guess := atoi (scanfToken input)
  let v := compare guess secret
  { trace :=
      [OutEv.out ("pls guess a number: "),
       OutEv.out (verdictMsg v),
       OutEv.out ("you guessed : " ++ toString guess ++ "\n"),
       OutEv.out ("secret num. : " ++ toString secret ++ "\n")],
    guess := guess, secret := secret, verdict := v }

/-- The bytes of a string literal, for concrete test inputs. -/
def str2b (s : String) : List Nat := s.data.map Char.toNat

/-- Claim C3 (evaluation at a failing input): for the invalid input line
`abcd5`, safe.c reports the error, but because the fallback writes the four
bytes `1337` without a NUL terminator, the digit `5` of the rejected input
survives at offset 4 and the guess parses as 13375, not the fixed fallback
1337 the specification states. -/
theorem C3_fallback_not_1337 :
    (safeMain 0 (List.replicate 100 0) (str2b ("abcd5\n"))).errInvalid = true ∧
    errs (safeMain 0 (List.replicate 100 0) (str2b ("abcd5\n"))).trace =
      ["Invalid input. Please enter a number.\n"] ∧
    (safeMain 0 (List.replicate 100 0) (str2b ("abcd5\n"))).guess = 13375 ∧
    (safeMain 0 (List.replicate 100 0) (str2b ("abcd5\n"))).guess ≠ 1337 := by
  decide

/-- Claim C4 (evaluation at a failing input): when `fgets` yields nothing
(end of file), safe.c prints the read error but then keeps going with the
uninitialized buffer; if the residual bytes happen to spell `42`, they pass
validation, no fallback is substituted, and the garbage value 42 is used as
the guess. -/
theorem C4_eof_uses_garbage :
    (safeMain 0 (str2b ("42") ++ [0] ++ List.replicate 97 0) []).errEOF = true ∧
    errs (safeMain 0 (str2b ("42") ++ [0] ++ List.replicate 97 0) []).trace =
      ["Error reading input.\n"] ∧
    (safeMain 0 (str2b ("42") ++ [0] ++ List.replicate 97 0) []).errInvalid = false ∧
    (safeMain 0 (str2b ("42") ++ [0] ++ List.replicate 97 0) []).guess = 42 := by
  decide

/-- Claim C9: an input line consisting of only a newline is classified by
safe.c as invalid numeric input (the invalid-numeral branch is taken, so
the error is reported and the fallback substitution runs), not as the
no-input condition — whatever the residual buffer contents. -/
theorem C9_blank_line_is_invalid :
    ∀ (draw : Nat) (g : List Nat),
      (safeMain draw g (str2b ("\n"))).errInvalid = true ∧
      (safeMain draw g (str2b ("\n"))).errEOF = false := by
  intro draw g
  have hf : fgetsRead 99 [10] = [10] := by decide
  have hs : str2b ("\n") = [10] := by decide
  have h1 : readBuf g [10] = 10 :: 0 :: g.drop 2 := by
    simp [readBuf, bufWrite, hf]
  simp only [safeMain, hs, h1, List.isEmpty_cons, safeMainCore, cstr]
  norm_num [List.takeWhile_cons, is_number]

lemma outs_safeMainCore (d : Nat) (e : Bool) (b : List Nat) :
    outs (safeMainCore d e b).trace =
      ["pls guess a number: ", verdictMsg (safeMainCore d e b).verdict,
       "you guessed : " ++ toString (safeMainCore d e b).guess ++ "\n",
       "secret num. : " ++ toString (safeMainCore d e b).secret ++ "\n"] := by
  simp only [safeMainCore, outs]
  cases e <;>
    cases is_number (cstr ((b.set ((cstr b).takeWhile (fun x => x ≠ 10)).length 0))) <;>
    simp [List.filterMap_append, List.filterMap_cons]

/-- Claim C8: on every run of safe.c — whatever the verdict and whether or
not an error path was taken — standard output consists of the prompt, then
exactly one verdict line (too small / too much / congrats), then the
`you guessed` line with the guess, then the `secret num.` line with the
secret, in that order. -/
theorem C8_output_shape :
    ∀ (draw : Nat) (g input : List Nat),
      ∃ v : Verdict,
        outs (safeMain draw g input).trace =
          ["pls guess a number: ", verdictMsg v,
           "you guessed : " ++ toString (safeMain draw g input).guess ++ "\n",
           "secret num. : " ++ toString (safeMain draw g input).secret ++ "\n"] ∧
        (verdictMsg v = "too small\n" ∨ verdictMsg v = "too much\n" ∨
          verdictMsg v = "congrats\n") := by
  intro draw g input
  refine ⟨(safeMain draw g input).verdict, ?_, ?_⟩
  · exact outs_safeMainCore draw input.isEmpty (readBuf g input)
  · cases (safeMain draw g input).verdict <;> simp [verdictMsg]

lemma digitsVal_of_nondigit (l : List Nat) (a : Int)
    (h : ∀ x ∈ l, isdigit x = false) : digitsVal l a = a := by
  cases l with
  | nil => rfl
  | cons b rest => simp [digitsVal, h b (List.mem_cons_self b rest)]

/-- Claim C10 as stated is false at a concrete input: the token `12abc` is
not a valid numeral, yet vuln.c's guess becomes 12 (the numeric prefix
`atoi` consumes), not 0 — still with no error reported. -/
theorem C10_counterexample :
    is_number (scanfToken (str2b ("12abc"))) = false ∧
    (vulnMain 0 (str2b ("12abc"))).guess = 12 ∧
    (vulnMain 0 (str2b ("12abc"))).guess ≠ 0 ∧
    errs (vulnMain 0 (str2b ("12abc"))).trace = [] := by
  decide

/-- Claim C10, amended: vuln.c passes the token straight to `atoi` with no
validation and reports no error ever; for every token containing no ASCII
digit at all (such as `abc`), the guess silently becomes 0 and the verdict
is computed against that 0 as if it had been a successful parse. -/
theorem C10_no_validation (draw : Nat) (input : List Nat)
    (h : ∀ b ∈ scanfToken input, ¬(48 ≤ b ∧ b ≤ 57)) :
    (vulnMain draw input).guess = 0 ∧
    errs (vulnMain draw input).trace = [] ∧
    (vulnMain draw input).verdict = compare 0 (generate_secret draw) := by
  have hdig : ∀ x ∈ scanfToken input, isdigit x = false := by
    intro x hx
    simp only [isdigit, decide_eq_false_iff_not]
    exact h x hx
  have hsp : ∀ x ∈ scanfToken input, isspace x = false := by
    intro x hx
    simp only [scanfToken] at hx
    have := List.mem_takeWhile_imp hx
    simpa using this
  have hguess : atoi (scanfToken input) = 0 := by
    rcases htok : scanfToken input with _ | ⟨b, rest⟩
    · simp [atoi]
    · have hb : isspace b = false := hsp b (htok ▸ List.mem_cons_self b rest)
      have hbd : isdigit b = false := hdig b (htok ▸ List.mem_cons_self b rest)
      have hrest : ∀ x ∈ rest, isdigit x = false := fun x hx =>
        hdig x (htok ▸ List.mem_cons_of_mem b hx)
      have hdrop : List.dropWhile isspace (b :: rest) = b :: rest := by
        simp [List.dropWhile_cons, hb]
      simp only [atoi, hdrop]
      by_cases h45 : b = 45
      · simp [h45, digitsVal_of_nondigit rest 0 hrest]
      · by_cases h43 : b = 43
        · simp [h45, h43, digitsVal_of_nondigit rest 0 hrest]
        · simp [h45, h43, digitsVal, hbd]
  refine ⟨by simp [vulnMain, hguess], by simp [vulnMain, errs], ?_⟩
  simp [vulnMain, hguess]

/-- Witness for C10: the digit-free token `abc` with draw 0. -/
theorem C10_no_validation_witness :
    (vulnMain 0 (str2b ("abc"))).guess = 0 ∧
    errs (vulnMain 0 (str2b ("abc"))).trace = [] ∧
    (vulnMain 0 (str2b ("abc"))).verdict = compare 0 (generate_secret 0) :=
  C10_no_validation 0 (str2b ("abc")) (by decide)

/-- The length of the first line of the input stream (bytes before the
first newline). -/
def lineLen (input : List Nat) : Nat :=
  (input.takeWhile (fun b => b ≠ 10)).length

lemma fgetsRead_length : ∀ (fuel : Nat) (input : List Nat),
    (fgetsRead fuel input).length ≤ fuel := by
  intro fuel
  induction fuel with
  | zero => intro input; cases input <;> simp [fgetsRead]
  | succ n ih =>
    intro input
    cases input with
    | nil => simp [fgetsRead]
    | cons b rest =>
      by_cases hb : b = 10
      · simp [fgetsRead, hb]
      · simp only [fgetsRead, hb, if_false, List.length_cons]
        have := ih rest
        omega

lemma fgetsRead_of_long_line : ∀ (fuel : Nat) (input : List Nat),
    fuel ≤ (input.takeWhile (fun b => b ≠ 10)).length →
    fgetsRead fuel input = input.take fuel := by
  intro fuel
  induction fuel with
  | zero => intro input _; cases input <;> simp [fgetsRead]
  | succ n ih =>
    intro input h
    cases input with
    | nil => simp [fgetsRead]
    | cons b rest =>
      by_cases hb : b = 10
      · simp [List.takeWhile_cons, hb] at h
      · simp only [List.takeWhile_cons, hb, decide_not, decide_eq_true_eq,
          if_true, decide_True, List.length_cons] at h
        simp only [fgetsRead, hb, if_false, List.take_succ_cons]
        rw [ih rest (by simp at h ⊢; omega)]

lemma length_takeWhile_below (p : Nat → Bool) :
    ∀ l : List Nat, (l.takeWhile p).length ≤ l.length := by
  intro l
  induction l with
  | nil => simp
  | cons a t ih =>
    by_cases hp : p a = true
    · simp only [List.takeWhile_cons, hp, if_true, List.length_cons]
      omega
    · rw [List.takeWhile_cons, if_neg hp]
      simp

lemma mem_take_of_le_takeWhile (p : Nat → Bool) :
    ∀ (l : List Nat) (n : Nat), n ≤ (l.takeWhile p).length →
      ∀ b ∈ l.take n, p b = true := by
  intro l
  induction l with
  | nil => intro n _ b hb; simp at hb
  | cons a t ih =>
    intro n h b hb
    by_cases hp : p a = true
    · simp only [List.takeWhile_cons, hp, if_true, List.length_cons] at h
      cases n with
      | zero => simp at hb
      | succ m =>
        simp only [List.take_succ_cons, List.mem_cons] at hb
        rcases hb with rfl | hb
        · exact hp
        · exact ih m (by omega) b hb
    · rw [List.takeWhile_cons, if_neg hp] at h
      simp only [List.length_nil] at h
      have : n = 0 := by omega
      subst this
      simp at hb

lemma cstr_append_zero : ∀ (xs : List Nat), (∀ b ∈ xs, b ≠ 0) →
    ∀ ys : List Nat, cstr (xs ++ 0 :: ys) = xs := by
  intro xs
  induction xs with
  | nil => intro _ ys; simp [cstr, List.takeWhile_cons]
  | cons a t ih =>
    intro h ys
    have ha : a ≠ 0 := h a (List.mem_cons_self a t)
    have ht := ih (fun b hb => h b (List.mem_cons_of_mem a hb)) ys
    simp only [cstr, ne_eq, decide_not] at ht ⊢
    simp only [List.cons_append, List.takeWhile_cons]
    simp [ha, ht]

lemma set_len_append : ∀ (xs : List Nat) (a b : Nat) (ys : List Nat),
    (xs ++ a :: ys).set xs.length b = xs ++ b :: ys := by
  intro xs a b ys
  induction xs with
  | nil => simp
  | cons c t ih => simp [List.set_cons_succ, ih]

/-- Claim C2: the bounded reader of safe.c.  First part: for every initial
buffer and every input stream, `fgets(buffer, 100, stdin)` stores at most
99 bytes plus the NUL terminator and the 100-byte buffer keeps its length
(no write past its bounds).  Second part: when the first input line is at
least as long as the capacity, the validated text is exactly the first 99
bytes of the stream and the whole run is the same as the run whose input
is that truncated text — the program continues and parses the truncation. -/
theorem C2_bounded_read :
    (∀ g input : List Nat, g.length = 100 →
        (fgetsRead 99 input).length ≤ 99 ∧ (readBuf g input).length = 100) ∧
    (∀ (draw : Nat) (g input : List Nat), g.length = 100 →
        99 ≤ lineLen input → (∀ b ∈ input, b ≠ 0) →
        (safeMain draw g input).text = input.take 99 ∧
        safeMain draw g input = safeMain draw g (input.take 99)) := by
  constructor
  · intro g input hg
    refine ⟨fgetsRead_length 99 input, ?_⟩
    unfold readBuf
    cases hin : input.isEmpty
    · have hlen := fgetsRead_length 99 input
      simp only [Bool.false_eq_true, if_false, bufWrite, List.length_append,
        List.length_drop, hg]
      simp only [List.length_append, List.length_cons, List.length_nil]
      omega
    · simpa using hg
  · intro draw g input hg hlong hnul
    have hlen_input : 99 ≤ input.length :=
      le_trans hlong (length_takeWhile_below _ input)
    have hlen99 : (input.take 99).length = 99 := by
      rw [List.length_take]
      exact min_eq_left hlen_input
    have hne : input ≠ [] := by
      intro e
      rw [e] at hlen_input
      simp at hlen_input
    have hE1 : input.isEmpty = false := by
      cases input with
      | nil => exact absurd rfl hne
      | cons a t => simp
    have hne99 : input.take 99 ≠ [] := by
      intro e
      rw [e] at hlen99
      simp at hlen99
    have hE2 : (input.take 99).isEmpty = false := by
      cases h : input.take 99 with
      | nil => exact absurd h hne99
      | cons a t => simp
    have hdropg : g.drop 100 = [] := by
      rw [← hg]
      exact List.drop_length g
    have hw : fgetsRead 99 input = input.take 99 :=
      fgetsRead_of_long_line 99 input hlong
    have hnot0 : ∀ b ∈ input.take 99, b ≠ 0 :=
      fun b hb => hnul b (List.take_subset 99 input hb)
    have hnot10 : ∀ b ∈ input.take 99, b ≠ 10 := by
      intro b hb
      have := mem_take_of_le_takeWhile (fun b => b ≠ 10) input 99 hlong b hb
      simpa using this
    have hbuf : readBuf g input = input.take 99 ++ [0] := by
      simp only [readBuf, hE1, Bool.false_eq_true, if_false, bufWrite, hw]
      simp [hlen99, hdropg]
    have htw99 : (input.take 99).takeWhile (fun b => b ≠ 10) = input.take 99 :=
      List.takeWhile_eq_self_iff.mpr (by intro b hb; simpa using hnot10 b hb)
    have hwt : fgetsRead 99 (input.take 99) = input.take 99 := by
      have : fgetsRead 99 (input.take 99) = (input.take 99).take 99 := by
        apply fgetsRead_of_long_line
        rw [htw99, hlen99]
      rw [this, List.take_take]
      simp
    have hbuf2 : readBuf g (input.take 99) = input.take 99 ++ [0] := by
      simp only [readBuf, hE2, Bool.false_eq_true, if_false, bufWrite, hwt]
      simp [hlen99, hdropg]
    have hcstrB : cstr (input.take 99 ++ [0]) = input.take 99 := by
      have := cstr_append_zero (input.take 99) hnot0 []
      simpa using this
    have hset : (input.take 99 ++ [0]).set (input.take 99).length 0 =
        input.take 99 ++ [0] :=
      set_len_append (input.take 99) 0 0 []
    constructor
    · show (safeMainCore draw input.isEmpty (readBuf g input)).text = input.take 99
      rw [hE1, hbuf]
      simp only [safeMainCore]
      rw [hcstrB, htw99, hset, hcstrB]
    · show safeMainCore draw input.isEmpty (readBuf g input) =
        safeMainCore draw (input.take 99).isEmpty (readBuf g (input.take 99))
      rw [hE1, hE2, hbuf, hbuf2]

/-- Witness for C2: a 120-byte line of the digit 7 into the 100-byte
buffer. -/
theorem C2_bounded_read_witness :
    ((fgetsRead 99 (List.replicate 120 55)).length ≤ 99 ∧
      (readBuf (List.replicate 100 97) (List.replicate 120 55)).length = 100) ∧
    ((safeMain 0 (List.replicate 100 97) (List.replicate 120 55)).text =
        (List.replicate 120 55).take 99 ∧
      safeMain 0 (List.replicate 100 97) (List.replicate 120 55) =
        safeMain 0 (List.replicate 100 97) ((List.replicate 120 55).take 99)) :=
  ⟨C2_bounded_read.1 (List.replicate 100 97) (List.replicate 120 55) (by decide),
   C2_bounded_read.2 0 (List.replicate 100 97) (List.replicate 120 55)
     (by decide) (by decide) (by decide)⟩

/-- Little-endian base-10 digits of `n`, computed by repeated division with
an explicit fuel bound (any `fuel ≥ n` gives all digits). -/
def natDigitsRev : Nat → Nat → List Nat
  | 0, _ => []
  | fuel + 1, n => if n = 0 then [] else n % 10 :: natDigitsRev fuel (n / 10)

/-- Decimal rendering of a natural number, as C `printf("%d", ...)` renders
a nonnegative value: most significant digit first, `0` for zero. -/
def renderNat (n : Nat) : List Nat :=
  if n = 0 then [48] else ((natDigitsRev n n).reverse).map (fun d => 48 + d)

/-- Decimal rendering of an integer, as C `printf("%d", ...)`: a leading
`-` for negative values, then the digits of the absolute value. -/
def renderInt (i : Int) : List Nat :=
  if i < 0 then 45 :: renderNat i.natAbs else renderNat i.natAbs

/-- Drop one redundant leading `+` sign (byte 43), as the round-trip claim
permits. -/
def dropPlus (s : List Nat) : List Nat :=
  if s.head? = some 43 then s.tail else s

/-- The digit portion of a numeral: everything after an optional single
sign. -/
def digitPart (s : List Nat) : List Nat :=
  if s.head? = some 43 ∨ s.head? = some 45 then s.tail else s

/-- A digit sequence in canonical form: either the single digit `0`, or a
nonempty sequence not starting with the digit `0` (no redundant leading
zeros). -/
def canonicalDigits (ds : List Nat) : Bool :=
  decide (ds = [48]) || (!ds.isEmpty && !decide (ds.head? = some 48))

/-- The value of a decimal digit string, most significant digit first. -/
def natVal (ds : List Nat) : Nat :=
  (ds.map (fun b => b - 48)).foldl (fun x d => 10 * x + d) 0

lemma natDigitsRev_eq_digits :
    ∀ (fuel n : Nat), n ≤ fuel → natDigitsRev fuel n = Nat.digits 10 n := by
  intro fuel
  induction fuel with
  | zero =>
    intro n h
    have : n = 0 := by omega
    subst this
    simp [natDigitsRev]
  | succ m ih =>
    intro n h
    by_cases hn : n = 0
    · subst hn; simp [natDigitsRev]
    · have hpos : 0 < n := Nat.pos_of_ne_zero hn
      rw [Nat.digits_def' (by norm_num : (1 : Nat) < 10) hpos]
      simp only [natDigitsRev, hn, if_false]
      rw [ih (n / 10) (by have := Nat.div_lt_self hpos (by norm_num : (1:Nat) < 10); omega)]

lemma foldl_eq_ofDigits :
    ∀ (L : List Nat) (a : Nat),
      L.foldl (fun x d => 10 * x + d) a =
        Nat.ofDigits 10 L.reverse + a * 10 ^ L.length := by
  intro L
  induction L with
  | nil => intro a; simp
  | cons d L ih =>
    intro a
    simp only [List.foldl_cons, ih (10 * a + d), List.reverse_cons,
      Nat.ofDigits_append, List.length_reverse, List.length_cons]
    have : Nat.ofDigits 10 [d] = d := Nat.ofDigits_singleton
    rw [this]
    ring

lemma digitsVal_eq_natVal :
    ∀ (ds : List Nat) (a : Nat), (∀ b ∈ ds, isdigit b = true) →
      digitsVal ds (a : Int) =
        (((ds.map (fun b => b - 48)).foldl (fun x d => 10 * x + d) a : Nat) : Int) := by
  intro ds
  induction ds with
  | nil => intro a _; simp [digitsVal]
  | cons b rest ih =>
    intro a h
    have hb : isdigit b = true := h b (List.mem_cons_self b rest)
    have hrest : ∀ x ∈ rest, isdigit x = true :=
      fun x hx => h x (List.mem_cons_of_mem b hx)
    simp only [digitsVal, hb, if_true, List.map_cons, List.foldl_cons]
    have hcast : 10 * (a : Int) + ((b - 48 : Nat) : Int) =
        (((10 * a + (b - 48) : Nat) : Nat) : Int) := by push_cast; ring
    rw [hcast, ih (10 * a + (b - 48)) hrest]

lemma natVal_eq_ofDigits (ds : List Nat) :
    natVal ds = Nat.ofDigits 10 ((ds.map (fun b => b - 48)).reverse) := by
  unfold natVal
  rw [foldl_eq_ofDigits]
  simp

lemma natVal_digits (ds : List Nat) (hd : ∀ b ∈ ds, isdigit b = true)
    (hne : ds ≠ []) (hhead : ds.head? ≠ some 48) :
    Nat.digits 10 (natVal ds) = (ds.map (fun b => b - 48)).reverse := by
  rcases ds with _ | ⟨b, t⟩
  · exact absurd rfl hne
  · have hb : isdigit b = true := hd b (List.mem_cons_self b t)
    have hb48 : 48 ≤ b ∧ b ≤ 57 := by simpa [isdigit] using hb
    have hbne : b ≠ 48 := by
      intro e
      exact hhead (by rw [e]; rfl)
    have hlt : ∀ m ∈ ((b :: t).map (fun x => x - 48)).reverse, m < 10 := by
      intro m hm
      rw [List.mem_reverse] at hm
      rcases List.mem_map.mp hm with ⟨c, hc, rfl⟩
      have := hd c hc
      simp only [isdigit, decide_eq_true_eq] at this
      omega
    have hrevne : ((b :: t).map (fun x => x - 48)).reverse ≠ [] := by simp
    have hlast : ∀ h : ((b :: t).map (fun x => x - 48)).reverse ≠ [],
        (((b :: t).map (fun x => x - 48)).reverse).getLast h ≠ 0 := by
      intro h e
      have h2 := List.getLast?_eq_getLast (((b :: t).map (fun x => x - 48)).reverse) h
      rw [e, List.getLast?_reverse] at h2
      simp only [List.map_cons, List.head?_cons, Option.some_inj] at h2
      omega
    rw [natVal_eq_ofDigits]
    exact Nat.digits_ofDigits 10 (by norm_num) _ hlt hlast

lemma natVal_ne_zero (ds : List Nat) (hd : ∀ b ∈ ds, isdigit b = true)
    (hne : ds ≠ []) (hhead : ds.head? ≠ some 48) : natVal ds ≠ 0 := by
  intro h0
  have := natVal_digits ds hd hne hhead
  rw [h0, Nat.digits_zero] at this
  rcases ds with _ | ⟨b, t⟩
  · exact absurd rfl hne
  · simp at this

lemma renderNat_natVal (ds : List Nat) (hd : ∀ b ∈ ds, isdigit b = true)
    (hcan : canonicalDigits ds = true) : renderNat (natVal ds) = ds := by
  have hcan' : ds = [48] ∨ (ds ≠ [] ∧ ds.head? ≠ some 48) := by
    simpa [canonicalDigits, List.isEmpty_iff] using hcan
  rcases hcan' with h | ⟨hne, hhead⟩
  · subst h
    decide
  · have hv := natVal_ne_zero ds hd hne hhead
    have hdig := natVal_digits ds hd hne hhead
    unfold renderNat
    rw [if_neg hv, natDigitsRev_eq_digits (natVal ds) (natVal ds) (le_refl _), hdig,
      List.reverse_reverse, List.map_map]
    have : ds.map ((fun d => 48 + d) ∘ fun b => b - 48) = ds.map (fun b => b) := by
      apply List.map_congr_left
      intro a ha
      have := hd a ha
      simp only [isdigit, decide_eq_true_eq] at this
      simp only [Function.comp_apply]
      omega
    rw [this]
    simp

lemma isspace_of_digit (b : Nat) (h : isdigit b = true) : isspace b = false := by
  simp only [isdigit, decide_eq_true_eq] at h
  simp only [isspace, decide_eq_false_iff_not]
  omega

lemma atoi_digits (ds : List Nat) (hd : ∀ b ∈ ds, isdigit b = true)
    (hne : ds ≠ []) : atoi ds = (natVal ds : Int) := by
  rcases ds with _ | ⟨b, t⟩
  · exact absurd rfl hne
  · have hb : isdigit b = true := hd b (List.mem_cons_self b t)
    have hb48 : 48 ≤ b ∧ b ≤ 57 := by simpa [isdigit] using hb
    have hsp : isspace b = false := isspace_of_digit b hb
    simp only [atoi, List.dropWhile_cons, hsp, Bool.false_eq_true, if_false]
    rw [if_neg (by omega : ¬ b = 45), if_neg (by omega : ¬ b = 43)]
    have := digitsVal_eq_natVal (b :: t) 0 hd
    simpa [natVal] using this

lemma atoi_plus (ds : List Nat) (hd : ∀ b ∈ ds, isdigit b = true) :
    atoi (43 :: ds) = (natVal ds : Int) := by
  have hsp : isspace 43 = false := by decide
  simp only [atoi, List.dropWhile_cons, hsp, Bool.false_eq_true, if_false]
  rw [if_pos trivial]
  have := digitsVal_eq_natVal ds 0 hd
  simpa [natVal] using this

lemma atoi_minus (ds : List Nat) (hd : ∀ b ∈ ds, isdigit b = true) :
    atoi (45 :: ds) = -(natVal ds : Int) := by
  have hsp : isspace 45 = false := by decide
  simp only [atoi, List.dropWhile_cons, hsp, Bool.false_eq_true, if_false]
  rw [if_pos trivial]
  have := digitsVal_eq_natVal ds 0 hd
  simp only [Nat.cast_zero] at this
  rw [this]
  rfl

/-- Claim C5 as stated is false at a concrete input: `00` is accepted by
the validator and has no leading `+`, but parsing it and re-rendering the
integer gives `0`, which does not reproduce the original string. -/
theorem C5_counterexample :
    is_number (str2b ("00")) = true ∧
    dropPlus (str2b ("00")) = str2b ("00") ∧
    renderInt (atoi (str2b ("00"))) ≠ str2b ("00") := by
  decide

/-- Claim C5, amended: for every string accepted by the validator whose
digit part is in canonical form (no redundant leading zero) and which is
not a negatively signed zero, parsing and re-rendering the integer in
decimal reproduces the original string up to dropping a redundant leading
`+`.  The parse is modelled with unbounded integers, so accepted strings
of every magnitude are covered (native `atoi` overflow is undefined
behaviour in C and has no single semantics to verify against). -/
theorem C5_roundtrip (s : List Nat) (hacc : is_number s = true)
    (hcan : canonicalDigits (digitPart s) = true)
    (hneg : ¬(s.head? = some 45 ∧ digitPart s = [48])) :
    renderInt (atoi s) = dropPlus s := by
  rcases s with _ | ⟨b, rest⟩
  · simp [is_number] at hacc
  · by_cases hb45 : b = 45
    · subst hb45
      rcases rest with _ | ⟨c, t⟩
      · simp [is_number] at hacc
      · have hd : ∀ x ∈ c :: t, isdigit x = true := by
          have : (c :: t).all isdigit = true := by
            simpa [is_number] using hacc
          simpa [List.all_eq_true] using this
        have hdp : digitPart (45 :: c :: t) = c :: t := by simp [digitPart]
        rw [hdp] at hcan
        have hne48 : c :: t ≠ [48] := by
          intro e
          exact hneg ⟨rfl, by rw [hdp, e]⟩
        have hhead : (c :: t).head? ≠ some 48 := by
          have hcan' : c :: t = [48] ∨ (c :: t ≠ [] ∧ (c :: t).head? ≠ some 48) := by
            simpa [canonicalDigits, List.isEmpty_iff] using hcan
          rcases hcan' with h | ⟨_, h⟩
          · exact absurd h hne48
          · exact h
        have hvne := natVal_ne_zero (c :: t) hd (by simp) hhead
        rw [atoi_minus (c :: t) hd]
        have hpos : (0 : Int) < (natVal (c :: t) : Int) := by
          exact_mod_cast Nat.pos_of_ne_zero hvne
        unfold renderInt
        rw [if_pos (by omega : -(natVal (c :: t) : Int) < 0)]
        rw [(by simp [Int.natAbs_neg] : (-(natVal (c :: t) : Int)).natAbs = natVal (c :: t))]
        rw [renderNat_natVal (c :: t) hd hcan]
        unfold dropPlus
        rw [if_neg (by simp)]
    · by_cases hb43 : b = 43
      · subst hb43
        rcases rest with _ | ⟨c, t⟩
        · simp [is_number] at hacc
        · have hd : ∀ x ∈ c :: t, isdigit x = true := by
            have : (c :: t).all isdigit = true := by
              simpa [is_number] using hacc
            simpa [List.all_eq_true] using this
          have hdp : digitPart (43 :: c :: t) = c :: t := by simp [digitPart]
          rw [hdp] at hcan
          rw [atoi_plus (c :: t) hd]
          unfold renderInt
          rw [if_neg (by exact not_lt.mpr (Int.natCast_nonneg _) : ¬ ((natVal (c :: t) : Int) < 0))]
          rw [(by simp : ((natVal (c :: t) : Int)).natAbs = natVal (c :: t))]
          rw [renderNat_natVal (c :: t) hd hcan]
          unfold dropPlus
          rw [if_pos (by simp)]
          rfl
      · have hd : ∀ x ∈ b :: rest, isdigit x = true := by
          have : (b :: rest).all isdigit = true := by
            simpa [is_number, hb45, hb43] using hacc
          simpa [List.all_eq_true] using this
        have hdp : digitPart (b :: rest) = b :: rest := by
          simp [digitPart, hb45, hb43]
        rw [hdp] at hcan
        rw [atoi_digits (b :: rest) hd (by simp)]
        unfold renderInt
        rw [if_neg (by exact not_lt.mpr (Int.natCast_nonneg _) : ¬ ((natVal (b :: rest) : Int) < 0))]
        rw [(by simp : ((natVal (b :: rest) : Int)).natAbs = natVal (b :: rest))]
        rw [renderNat_natVal (b :: rest) hd hcan]
        unfold dropPlus
        rw [if_neg (by simp [hb43])]

/-- Witness for C5: the canonical accepted string `-17`. -/
theorem C5_roundtrip_witness :
    renderInt (atoi (str2b ("-17"))) = dropPlus (str2b ("-17")) :=
  C5_roundtrip (str2b ("-17")) (by decide) (by decide) (by decide)

end GuessGame
